import Mathlib

/-!
Verification of the viterra commodity-trading simulation engine
(`src/viterra.py`) against its natural-language specification.

The Python code is shallowly embedded: Python `dict`s become association
lists (first-occurrence lookup, in-place replacement on insert, deletion of
the first matching key, as CPython dicts with unique keys behave), Python
floats become exact rationals (`ℚ`), Python ints become `ℤ`, and values that
the code draws from the ambient random source or from transcendental
functions (`random.gauss`, `math.sin`, `math.exp`) are passed in as explicit
oracle parameters.  A Python statement that would raise (`KeyError`,
`TypeError` on `None` arithmetic) is modelled by an `Option` result, `none`
standing for the raised exception.
-/

set_option allowUnsafeReducibility true

attribute [local semireducible]
  Rat.mul Rat.add Rat.sub Rat.div Rat.neg Rat.inv Rat.ofScientific

namespace Viterra

/-! ## Association lists modelling Python dicts -/

/-- Lookup of the first binding of a key, as a Python dict read. -/
def lookupA {κ ν : Type} [DecidableEq κ] : List (κ × ν) → κ → Option ν
  | [], _ => none
  | (k', v') :: rest, k => if k' = k then some v' else lookupA rest k

/-- `d[k] = v` on a Python dict: replace the first binding of `k` in place,
else append a new binding at the end (dicts preserve insertion order). -/
def insertA {κ ν : Type} [DecidableEq κ] : List (κ × ν) → κ → ν → List (κ × ν)
  | [], k, v => [(k, v)]
  | (k', v') :: rest, k, v =>
    if k' = k then (k, v) :: rest else (k', v') :: insertA rest k v

/-- `del d[k]` on a Python dict: drop the first binding of `k`. -/
def eraseA {κ ν : Type} [DecidableEq κ] : List (κ × ν) → κ → List (κ × ν)
  | [], _ => []
  | (k', v') :: rest, k => if k' = k then rest else (k', v') :: eraseA rest k

/-- Sum of a rational weight over all values of an association list. -/
def sumByA {κ ν : Type} (f : ν → ℚ) (m : List (κ × ν)) : ℚ :=
  (m.map fun p => f p.2).sum

theorem lookupA_insertA_self {κ ν : Type} [DecidableEq κ]
    (m : List (κ × ν)) (k : κ) (v : ν) : lookupA (insertA m k v) k = some v := by
  induction m with
  | nil => simp [insertA, lookupA]
  | cons hd tl ih =>
    by_cases h : hd.1 = k
    · simp [insertA, lookupA, h]
    · simp [insertA, lookupA, h, ih]

theorem lookupA_insertA_ne {κ ν : Type} [DecidableEq κ]
    (m : List (κ × ν)) (k k' : κ) (v : ν) (h : k ≠ k') :
    lookupA (insertA m k v) k' = lookupA m k' := by
  induction m with
  | nil => simp [insertA, lookupA, h]
  | cons hd tl ih =>
    by_cases hh : hd.1 = k
    · simp [insertA, lookupA, hh, h]
    · simp only [insertA, lookupA, if_neg hh]
      by_cases hk : hd.1 = k'
      · simp [hk]
      · simp [hk, ih]

theorem lookupA_eraseA_ne {κ ν : Type} [DecidableEq κ]
    (m : List (κ × ν)) (k k' : κ) (h : k ≠ k') :
    lookupA (eraseA m k) k' = lookupA m k' := by
  induction m with
  | nil => simp [eraseA, lookupA]
  | cons hd tl ih =>
    by_cases hh : hd.1 = k
    · have hne : ¬ hd.1 = k' := by rw [hh]; exact h
      simp only [eraseA, if_pos hh, lookupA, if_neg hne]
    · simp only [eraseA, if_neg hh]
      by_cases hk : hd.1 = k'
      · simp [lookupA, hk]
      · simp [lookupA, hk, ih]

theorem eraseA_of_lookupA_none {κ ν : Type} [DecidableEq κ]
    (m : List (κ × ν)) (k : κ) (h : lookupA m k = none) : eraseA m k = m := by
  induction m with
  | nil => rfl
  | cons hd tl ih =>
    by_cases hh : hd.1 = k
    · simp [lookupA, hh] at h
    · simp only [lookupA, if_neg hh] at h
      simp [eraseA, hh, ih h]

theorem lookupA_none_of_not_mem_keys {κ ν : Type} [DecidableEq κ]
    (m : List (κ × ν)) (k : κ) (h : k ∉ m.map Prod.fst) : lookupA m k = none := by
  induction m with
  | nil => rfl
  | cons hd tl ih =>
    simp only [List.map_cons, List.mem_cons, not_or] at h
    have hne : ¬ hd.1 = k := fun he => h.1 he.symm
    simp only [lookupA, if_neg hne]
    exact ih h.2

theorem lookupA_eraseA_self_of_nodup {κ ν : Type} [DecidableEq κ]
    (m : List (κ × ν)) (k : κ) (h : (m.map Prod.fst).Nodup) :
    lookupA (eraseA m k) k = none := by
  induction m with
  | nil => rfl
  | cons hd tl ih =>
    rw [List.map_cons, List.nodup_cons] at h
    by_cases hh : hd.1 = k
    · simp only [eraseA, if_pos hh]
      exact lookupA_none_of_not_mem_keys tl k (hh ▸ h.1)
    · simp only [eraseA, if_neg hh, lookupA, if_neg hh]
      exact ih h.2

theorem sumByA_insertA_none {κ ν : Type} [DecidableEq κ]
    (f : ν → ℚ) (m : List (κ × ν)) (k : κ) (v : ν) (h : lookupA m k = none) :
    sumByA f (insertA m k v) = sumByA f m + f v := by
  induction m with
  | nil => simp [insertA, sumByA]
  | cons hd tl ih =>
    by_cases hh : hd.1 = k
    · simp [lookupA, hh] at h
    · simp only [lookupA, if_neg hh] at h
      simp only [insertA, if_neg hh, sumByA, List.map_cons, List.sum_cons]
      have := ih h
      simp only [sumByA] at this
      rw [this]; ring

theorem sumByA_insertA_some {κ ν : Type} [DecidableEq κ]
    (f : ν → ℚ) (m : List (κ × ν)) (k : κ) (v w : ν) (h : lookupA m k = some w) :
    sumByA f (insertA m k v) = sumByA f m - f w + f v := by
  induction m with
  | nil => simp [lookupA] at h
  | cons hd tl ih =>
    by_cases hh : hd.1 = k
    · simp only [lookupA, if_pos hh, Option.some.injEq] at h
      simp only [insertA, if_pos hh, sumByA, List.map_cons, List.sum_cons, h]
      ring
    · simp only [lookupA, if_neg hh] at h
      simp only [insertA, if_neg hh, sumByA, List.map_cons, List.sum_cons]
      have := ih h
      simp only [sumByA] at this
      rw [this]; ring

theorem sumByA_eraseA_some {κ ν : Type} [DecidableEq κ]
    (f : ν → ℚ) (m : List (κ × ν)) (k : κ) (w : ν) (h : lookupA m k = some w) :
    sumByA f (eraseA m k) = sumByA f m - f w := by
  induction m with
  | nil => simp [lookupA] at h
  | cons hd tl ih =>
    by_cases hh : hd.1 = k
    · simp only [lookupA, if_pos hh, Option.some.injEq] at h
      simp only [eraseA, if_pos hh, sumByA, List.map_cons, List.sum_cons, h]
      ring
    · simp only [lookupA, if_neg hh] at h
      simp only [eraseA, if_neg hh, sumByA, List.map_cons, List.sum_cons]
      have := ih h
      simp only [sumByA] at this
      rw [this]; ring

theorem lookupA_mem {κ ν : Type} [DecidableEq κ]
    (m : List (κ × ν)) (k : κ) (v : ν) (h : lookupA m k = some v) : (k, v) ∈ m := by
  induction m with
  | nil => simp [lookupA] at h
  | cons hd tl ih =>
    by_cases hh : hd.1 = k
    · simp only [lookupA, if_pos hh, Option.some.injEq] at h
      obtain ⟨a, b⟩ := hd
      simp only at hh h
      subst hh
      subst h
      exact List.mem_cons_self _ _
    · simp only [lookupA, if_neg hh] at h
      exact List.mem_cons_of_mem _ (ih h)

/-! ## FuturesManager: data model (`src/viterra.py` lines 11-137) -/

inductive AssetClass
  | AGRICULTURE | SOFTS | ENERGY | CURRENCY | FINANCIAL
deriving DecidableEq

inductive OrderType
  | MARKET | LIMIT
deriving DecidableEq

inductive OrderSide
  | BUY | SELL
deriving DecidableEq

inductive PositionType
  | SPECULATIVE | HEDGE
deriving DecidableEq

structure ContractSpecification where
  name : String
  asset_class : AssetClass
  contract_size : ℚ
  tick_size : ℚ
  initial_margin_pct : ℚ
deriving DecidableEq

/-- One expiry instance of a spec.  The Python `contract_id` string
`f"{spec.name}W{expiry_week}-{expiry_year}"` is kept as the key of the
`active_contracts` map; the embedding treats it as an opaque key. -/
structure FuturesContract where
  spec : ContractSpecification
  expiry_week : ℤ
  expiry_year : ℤ
  price : ℚ
  bid : ℚ
  ask : ℚ
  volume : ℤ
deriving DecidableEq

/-- `FuturesContract.__post_init__`: bid and ask open two ticks around price. -/
def mkContract (spec : ContractSpecification) (expiry_week expiry_year : ℤ)
    (price : ℚ) : FuturesContract :=
  { spec := spec, expiry_week := expiry_week, expiry_year := expiry_year,
    price := price,
    bid := price - spec.tick_size * 2, ask := price + spec.tick_size * 2,
    volume := 0 }

structure FuturesOrder where
  contract_id : String
  order_type : OrderType
  side : OrderSide
  quantity : ℤ
  price : Option ℚ
  position_type : PositionType
deriving DecidableEq

structure FuturesPosition where
  contract_id : String
  quantity : ℤ
  average_price : ℚ
  position_type : PositionType
  spec : ContractSpecification
  unrealized_pnl : ℚ
  realized_pnl : ℚ
  margin_held : ℚ
deriving DecidableEq

/-- The slice of `FuturesManager` and game state that order execution,
rolling and expiry touch.  `capital` is the game-wide cash ledger. -/
structure FMState where
  active_contracts : List (String × FuturesContract)
  positions : List ((String × PositionType) × FuturesPosition)
  orders : List FuturesOrder
  total_margin_required : ℚ
  capital : ℚ
deriving DecidableEq

/-! ## FuturesManager: order placement and execution
(`place_order` lines 504-530, `_validate_order` 532-543,
`_calculate_margin_requirement` 545-549, `_execute_order` 551-669,
`_calculate_contract_value` 964-973) -/

/-- `_calculate_contract_value`: SOFTS prices are cents/lb and divided by
100; FINANCIAL contracts use a fixed 1000 point value; all other classes
use `price * contract_size * quantity`. -/
def contractValue (c : FuturesContract) (quantity : ℤ) (price : ℚ) : ℚ :=
  match c.spec.asset_class with
  | AssetClass.SOFTS => (price / 100) * c.spec.contract_size * quantity
  | AssetClass.FINANCIAL => price * 1000 * quantity
  | _ => price * c.spec.contract_size * quantity

/-- `_calculate_margin_requirement`. -/
def marginRequirement (c : FuturesContract) (quantity : ℤ) (price : ℚ) : ℚ :=
  contractValue c quantity price * c.spec.initial_margin_pct

/-- Python falsiness of an optional float (`not order.price`):
absent or zero. -/
def pyFalsyPrice : Option ℚ → Bool
  | none => true
  | some p => p = 0

/-- `_validate_order`. -/
def validateOrder (s : FMState) (o : FuturesOrder) : Bool :=
  (lookupA s.active_contracts o.contract_id).isSome &&
  decide (0 < o.quantity) &&
  !(decide (o.order_type = OrderType.LIMIT) && pyFalsyPrice o.price)

/-- The position-book and cash effect of a fill in `_execute_order`
(lines 580-656): update, close or create the position keyed by
`(contract_id, position_type)`. -/
def applyFill (s : FMState) (o : FuturesOrder) (contract : FuturesContract) : FMState :=
  let fill_price := if o.side = OrderSide.BUY then contract.ask else contract.bid
  let margin_required := marginRequirement contract o.quantity fill_price
  let key := (o.contract_id, o.position_type)
  match lookupA s.positions key with
        | some pos =>
          let new_quantity := if o.side = OrderSide.BUY then o.quantity else -o.quantity
          if (0 < pos.quantity ∧ new_quantity < 0) ∨ (pos.quantity < 0 ∧ 0 < new_quantity) then
            -- closing trade: realize P&L and release margin proportionally
            let closing_quantity := min |pos.quantity| |new_quantity|
            let realized_pnl :=
              (if 0 < pos.quantity then
                (closing_quantity : ℚ) * (contract.bid - pos.average_price)
              else
                (closing_quantity : ℚ) * (pos.average_price - contract.ask))
              * contract.spec.contract_size
            let margin_released :=
              (closing_quantity : ℚ) / ((|pos.quantity| : ℤ) : ℚ) * pos.margin_held
            let remaining_quantity := pos.quantity + new_quantity
            let pos1 : FuturesPosition :=
              { pos with
                realized_pnl := pos.realized_pnl + realized_pnl,
                margin_held := pos.margin_held - margin_released,
                quantity := remaining_quantity }
            { s with
              capital := s.capital + realized_pnl + margin_released,
              total_margin_required := s.total_margin_required - margin_released,
              positions :=
                if remaining_quantity = 0 then eraseA s.positions key
                else insertA s.positions key pos1 }
          else
            -- adding to a same-direction position
            let total_quantity := pos.quantity + new_quantity
            let avg := if |pos.quantity| < |new_quantity| then fill_price
                       else pos.average_price
            let pos1 : FuturesPosition :=
              { pos with
                average_price := avg,
                quantity := total_quantity,
                margin_held := pos.margin_held + margin_required }
            { s with
              positions := insertA s.positions key pos1,
              capital := s.capital - margin_required,
              total_margin_required := s.total_margin_required + margin_required }
        | none =>
          -- create a new position
          let pos : FuturesPosition :=
            { contract_id := o.contract_id,
              quantity := if o.side = OrderSide.BUY then o.quantity else -o.quantity,
              average_price := fill_price,
              position_type := o.position_type,
              spec := contract.spec,
              unrealized_pnl := 0,
              realized_pnl := 0,
              margin_held := margin_required }
          { s with
            positions := insertA s.positions key pos,
            capital := s.capital - margin_required,
            total_margin_required := s.total_margin_required + margin_required }

/-- `contract.volume += abs(order.quantity)` (line 659). -/
def bumpVolume (c : FuturesContract) (q : ℤ) : FuturesContract :=
  { c with volume := c.volume + |q| }

/-- Store the traded contract's updated statistics back in the map. -/
def recordTrade (s1 : FMState) (c : FuturesContract) (cid : String) (q : ℤ) : FMState :=
  { s1 with active_contracts := insertA s1.active_contracts cid (bumpVolume c q) }

/-- `_execute_order`.  `none` models the `KeyError` Python would raise on an
unknown contract id (unreachable through `place_order`, which validates).
The unused Python local `contract_value` (lines 573-578) is dropped. -/
def executeOrder (s : FMState) (o : FuturesOrder) : Option (Bool × FMState) :=
  match lookupA s.active_contracts o.contract_id with
  | none => none
  | some contract =>
    let fill_price := if o.side = OrderSide.BUY then contract.ask else contract.bid
    let margin_required := marginRequirement contract o.quantity fill_price
    if margin_required > s.capital then some (false, s)
    else some (true, recordTrade (applyFill s o contract) contract o.contract_id o.quantity)

/-- `place_order`.  The pre-check margin is computed from the full order
quantity and the contract's mid `price` by the plain
`qty * price * contract_size * margin%` formula, with no asset-class
conversion. -/
def place_order (s : FMState) (o : FuturesOrder) : Option (Bool × FMState) :=
  if validateOrder s o then
    match lookupA s.active_contracts o.contract_id with
    | none => none
    | some contract =>
      let margin_required :=
        ((|o.quantity| : ℤ) : ℚ) * contract.price * contract.spec.contract_size *
          contract.spec.initial_margin_pct
      if margin_required > s.capital then some (false, s)
      else if o.order_type = OrderType.MARKET then executeOrder s o
      else some (true, { s with orders := s.orders ++ [o] })
  else some (false, s)

/-! ## FuturesManager: weekly rolls and expiry
(`update_positions` lines 671-741, `_roll_position` 872-896,
`_handle_expiration` 816-836).

Randomized repricing and forward-curve creation inside `update_positions`
draw from the shared RNG; the successor resolution `_get_next_contract`
(which may create fresh contracts before returning one) enters the
embedding as an oracle `next : ContractSpecification → Option String`
returning the id of the contract the expiring one rolls into. -/

/-- `weeks_to_expiry` as computed in `update_positions` (lines 692-693). -/
def weeksToExpiry (c : FuturesContract) (week year : ℤ) : ℤ :=
  (c.expiry_week - week) + (c.expiry_year - year) * 52

/-- `_roll_position`: copy the position to the successor key at the
successor's current price with the same quantity and margin, then delete
the old key.  A position already stored under the successor key is
overwritten. -/
def rollPosition (s : FMState) (pos : FuturesPosition) (new_contract_id : String) : FMState :=
  match lookupA s.active_contracts new_contract_id with
  | none => s
  | some new_contract =>
    let new_position : FuturesPosition :=
      { contract_id := new_contract_id,
        quantity := pos.quantity,
        average_price := new_contract.price,
        position_type := pos.position_type,
        spec := new_contract.spec,
        unrealized_pnl := 0,
        realized_pnl := 0,
        margin_held := pos.margin_held }
    let positions2 :=
      eraseA (insertA s.positions (new_contract_id, pos.position_type) new_position)
        (pos.contract_id, pos.position_type)
    { s with positions := positions2 }

/-- One iteration of the roll loop in `update_positions` (lines 708-723):
only the `(old_id, SPECULATIVE)` position key is migrated, then the expired
contract is deleted. -/
def rollOne (s : FMState) (old_id new_id : String) : FMState :=
  let s1 :=
    match lookupA s.positions (old_id, PositionType.SPECULATIVE) with
    | some pos => rollPosition s pos new_id
    | none => s
  { s1 with active_contracts := eraseA s1.active_contracts old_id }

/-- First pass of `update_positions` (lines 691-699): the pairs
`(expiring contract, successor)` for contracts with `weeks_to_expiry ≤ 0`
whose successor resolution yields a contract. -/
def findRolls (s : FMState) (week year : ℤ)
    (next : ContractSpecification → Option String) : List (String × String) :=
  s.active_contracts.filterMap fun p =>
    if weeksToExpiry p.2 week year ≤ 0 then
      (next p.2.spec).map fun nid => (p.1, nid)
    else none

/-- Second pass of `update_positions`: process every roll pair in order. -/
def rollPhase (s : FMState) (rolls : List (String × String)) : FMState :=
  rolls.foldl (fun st pr => rollOne st pr.1 pr.2) s

/-- `_handle_expiration`: settle final P&L, release margin, delete the
position. -/
def handleExpiration (s : FMState) (pos : FuturesPosition) : FMState :=
  { s with
    capital := s.capital + pos.unrealized_pnl + pos.margin_held,
    total_margin_required := s.total_margin_required - pos.margin_held,
    positions := eraseA s.positions (pos.contract_id, pos.position_type) }

/-! ## The margin invariant (claim C1) -/

/-- Sum of `margin_held` over all entries of the positions map. -/
def marginSum (s : FMState) : ℚ := sumByA (fun p => p.margin_held) s.positions

/-- The spec's margin invariant:
`total_margin_required == Σ positions[*].margin_held`
(exact in the rational embedding). -/
def marginInvariant (s : FMState) : Prop := s.total_margin_required = marginSum s

instance (s : FMState) : Decidable (marginInvariant s) := by
  unfold marginInvariant; infer_instance

/-- Position map entries are keyed by the position's own
`(contract_id, position_type)` — true of every state the manager builds. -/
def keyConsistent (s : FMState) : Prop :=
  ∀ kp ∈ s.positions, kp.2.contract_id = kp.1.1 ∧ kp.2.position_type = kp.1.2

instance (s : FMState) : Decidable (keyConsistent s) := by
  unfold keyConsistent; infer_instance

/-- One operation of the futures subsystem: order placement/execution
(market fills, closing trades), a roll of one expired contract, or an
expiry settlement.  A roll step carries the side condition that no position
already sits under the destination key — without it `_roll_position`
overwrites the destination position (see the C1 counterexample). -/
inductive FMStep : FMState → FMState → Prop
  | order {s : FMState} (o : FuturesOrder) (b : Bool) {s' : FMState} :
      place_order s o = some (b, s') → FMStep s s'
  | roll {s : FMState} (old_id new_id : String) :
      keyConsistent s →
      lookupA s.positions (new_id, PositionType.SPECULATIVE) = none →
      FMStep s (rollOne s old_id new_id)
  | expire {s : FMState} (pos : FuturesPosition) :
      lookupA s.positions (pos.contract_id, pos.position_type) = some pos →
      FMStep s (handleExpiration s pos)

theorem applyFill_margin (s : FMState) (o : FuturesOrder) (c : FuturesContract)
    (h : marginInvariant s) : marginInvariant (applyFill s o c) := by
  unfold marginInvariant marginSum at *
  cases hp : lookupA s.positions (o.contract_id, o.position_type) with
  | none =>
    simp only [applyFill, hp]
    rw [sumByA_insertA_none _ _ _ _ hp, h]
  | some pos =>
    simp only [applyFill, hp]
    by_cases hclose : (0 < pos.quantity ∧
        (if o.side = OrderSide.BUY then o.quantity else -o.quantity) < 0) ∨
        (pos.quantity < 0 ∧ 0 < (if o.side = OrderSide.BUY then o.quantity else -o.quantity))
    · rw [if_pos hclose]
      by_cases hrem :
          pos.quantity + (if o.side = OrderSide.BUY then o.quantity else -o.quantity) = 0
      · rw [if_pos hrem]
        simp only
        rw [sumByA_eraseA_some _ _ _ pos hp, ← h]
        have hq : pos.quantity ≠ 0 := by
          rcases hclose with ⟨h1, -⟩ | ⟨h1, -⟩
          · exact ne_of_gt h1
          · exact ne_of_lt h1
        have habs : |if o.side = OrderSide.BUY then o.quantity else -o.quantity| =
            |pos.quantity| := by
          have hval : (if o.side = OrderSide.BUY then o.quantity else -o.quantity) =
              -pos.quantity := by linarith [hrem]
          rw [hval, abs_neg]
        have hcne : ((|pos.quantity| : ℤ) : ℚ) ≠ 0 := by
          exact_mod_cast abs_ne_zero.mpr hq
        rw [habs, min_self, div_self hcne, one_mul]
      · rw [if_neg hrem]
        simp only
        rw [sumByA_insertA_some _ _ _ _ pos hp, ← h]
        simp only
        ring
    · rw [if_neg hclose]
      simp only
      rw [sumByA_insertA_some _ _ _ _ pos hp, ← h]
      simp only
      ring

theorem executeOrder_margin (s : FMState) (o : FuturesOrder) (b : Bool) (s' : FMState)
    (h : executeOrder s o = some (b, s')) (hinv : marginInvariant s) :
    marginInvariant s' := by
  unfold executeOrder at h
  cases hc : lookupA s.active_contracts o.contract_id with
  | none => rw [hc] at h; simp at h
  | some contract =>
    rw [hc] at h
    simp only at h
    by_cases hgate : marginRequirement contract o.quantity
        (if o.side = OrderSide.BUY then contract.ask else contract.bid) > s.capital
    · rw [if_pos hgate] at h
      simp only [Option.some.injEq, Prod.mk.injEq] at h
      obtain ⟨-, hs⟩ := h
      exact hs ▸ hinv
    · rw [if_neg hgate] at h
      simp only [Option.some.injEq, Prod.mk.injEq] at h
      obtain ⟨-, hs⟩ := h
      subst hs
      have happ := applyFill_margin s o contract hinv
      unfold marginInvariant marginSum at *
      simpa using happ

theorem place_order_margin (s : FMState) (o : FuturesOrder) (b : Bool) (s' : FMState)
    (h : place_order s o = some (b, s')) (hinv : marginInvariant s) :
    marginInvariant s' := by
  unfold place_order at h
  by_cases hv : validateOrder s o
  · rw [if_pos hv] at h
    cases hc : lookupA s.active_contracts o.contract_id with
    | none => rw [hc] at h; simp at h
    | some contract =>
      rw [hc] at h
      simp only at h
      by_cases hgate : ((|o.quantity| : ℤ) : ℚ) * contract.price *
          contract.spec.contract_size * contract.spec.initial_margin_pct > s.capital
      · rw [if_pos hgate] at h
        simp only [Option.some.injEq, Prod.mk.injEq] at h
        obtain ⟨-, hs⟩ := h
        exact hs ▸ hinv
      · rw [if_neg hgate] at h
        by_cases hmkt : o.order_type = OrderType.MARKET
        · rw [if_pos hmkt] at h
          exact executeOrder_margin s o b s' h hinv
        · rw [if_neg hmkt] at h
          simp only [Option.some.injEq, Prod.mk.injEq] at h
          obtain ⟨-, hs⟩ := h
          subst hs
          unfold marginInvariant marginSum at *
          simpa using hinv
  · rw [if_neg hv] at h
    simp only [Option.some.injEq, Prod.mk.injEq] at h
    obtain ⟨-, hs⟩ := h
    exact hs ▸ hinv

theorem rollOne_margin (s : FMState) (old_id new_id : String)
    (hwf : keyConsistent s)
    (hfree : lookupA s.positions (new_id, PositionType.SPECULATIVE) = none)
    (h : marginInvariant s) : marginInvariant (rollOne s old_id new_id) := by
  unfold marginInvariant marginSum at *
  cases hp : lookupA s.positions (old_id, PositionType.SPECULATIVE) with
  | none =>
    simp only [rollOne, hp]
    exact h
  | some pos =>
    obtain ⟨hci, hpt⟩ := hwf _ (lookupA_mem _ _ _ hp)
    simp only at hci hpt
    have hne : old_id ≠ new_id := by
      intro he
      rw [he] at hp
      rw [hp] at hfree
      exact absurd hfree (by simp)
    cases hc : lookupA s.active_contracts new_id with
    | none =>
      simp only [rollOne, hp, rollPosition, hc]
      exact h
    | some nc =>
      simp only [rollOne, hp, rollPosition, hc]
      rw [hpt, hci]
      have hkne : ((new_id, PositionType.SPECULATIVE) : String × PositionType) ≠
          (old_id, PositionType.SPECULATIVE) := by
        intro he
        exact hne (congrArg Prod.fst he).symm
      rw [sumByA_eraseA_some _ _ _ pos
        (by rw [lookupA_insertA_ne _ _ _ _ hkne]; exact hp)]
      rw [sumByA_insertA_none _ _ _ _ hfree, ← h]
      simp only
      ring

theorem handleExpiration_margin (s : FMState) (pos : FuturesPosition)
    (hp : lookupA s.positions (pos.contract_id, pos.position_type) = some pos)
    (h : marginInvariant s) : marginInvariant (handleExpiration s pos) := by
  unfold marginInvariant marginSum at *
  simp only [handleExpiration]
  rw [sumByA_eraseA_some _ _ _ pos hp, ← h]

theorem fmStep_margin {s s' : FMState} (hstep : FMStep s s')
    (hinv : marginInvariant s) : marginInvariant s' := by
  cases hstep with
  | order o b h => exact place_order_margin _ _ _ _ h hinv
  | roll old_id new_id hwf hfree => exact rollOne_margin _ _ _ hwf hfree hinv
  | expire pos hp => exact handleExpiration_margin _ _ hp hinv

/-! ## Concrete demonstration states for the futures claims -/

/-- The final state of a `place_order` call, the boolean dropped
(used to chain concrete scenarios). -/
def runOrder (s : FMState) (o : FuturesOrder) : FMState :=
  match place_order s o with
  | some (_, t) => t
  | none => s

/-- The final state of an `_execute_order` call, the boolean dropped. -/
def execState (s : FMState) (o : FuturesOrder) : FMState :=
  match executeOrder s o with
  | some (_, t) => t
  | none => s

/-- The boolean a `place_order` call returns. -/
def orderAccepted (s : FMState) (o : FuturesOrder) : Bool :=
  match place_order s o with
  | some (b, _) => b
  | none => false

/-- The CORN contract specification (`setup_grain_contracts`, lines 167-178). -/
def cornSpec : ContractSpecification :=
  { name := "CORN", asset_class := AssetClass.AGRICULTURE,
    contract_size := 5000, tick_size := 1/4, initial_margin_pct := 1/10 }

def cornW14 : FuturesContract := mkContract cornSpec 14 1 215

def cornW27 : FuturesContract := mkContract cornSpec 27 1 216

/-- Two live CORN contracts, no positions, one million of capital. -/
def fmDemo0 : FMState :=
  { active_contracts := [("CORNW14-1", cornW14), ("CORNW27-1", cornW27)],
    positions := [], orders := [], total_margin_required := 0, capital := 1000000 }

def buyW14 : FuturesOrder :=
  { contract_id := "CORNW14-1", order_type := OrderType.MARKET,
    side := OrderSide.BUY, quantity := 1, price := none,
    position_type := PositionType.SPECULATIVE }

def buyW27 : FuturesOrder :=
  { contract_id := "CORNW27-1", order_type := OrderType.MARKET,
    side := OrderSide.BUY, quantity := 1, price := none,
    position_type := PositionType.SPECULATIVE }

def fmDemo1 : FMState := runOrder fmDemo0 buyW14

def fmDemo2 : FMState := runOrder fmDemo1 buyW27

/-- The successor oracle rolling everything into the CORN week-27 contract. -/
def nextW27 : ContractSpecification → Option String := fun _ => some "CORNW27-1"

/-- C1.  Margin invariant: at every state reachable by any sequence of
operations (order placement and execution, position closing, rolls, expiry
settlement), `total_margin_required` equals the sum of `margin_held` over
all entries of the positions map.  REFUTED: after buying one contract each
of CORN W14 and CORN W27 the invariant holds, but when W14 expires,
`_roll_position` stores the migrated position under the `(W27, SPECULATIVE)`
key, overwriting the position already held there; its `margin_held` drops
out of the sum while `total_margin_required` is unchanged. -/
theorem margin_invariant_roll_counterexample :
    place_order fmDemo0 buyW14 = some (true, fmDemo1) ∧
    place_order fmDemo1 buyW27 = some (true, fmDemo2) ∧
    marginInvariant fmDemo2 ∧
    findRolls fmDemo2 14 1 nextW27 = [("CORNW14-1", "CORNW27-1")] ∧
    ¬ marginInvariant (rollPhase fmDemo2 (findRolls fmDemo2 14 1 nextW27)) := by
  refine ⟨rfl, rfl, by decide, by decide, by decide⟩

/-- C1 (amended).  The margin invariant
`total_margin_required = Σ margin_held` is preserved by every sequence of
operations — order placement and execution, position closing, expiry
settlement, and rolls — provided each roll's destination
`(contract, SPECULATIVE)` key holds no position, the condition the
counterexample shows is necessary. -/
theorem margin_invariant_preserved_amended {s t : FMState}
    (h : Relation.ReflTransGen FMStep s t) (hinv : marginInvariant s) :
    marginInvariant t := by
  induction h with
  | refl => exact hinv
  | tail h1 h2 ih => exact fmStep_margin h2 ih

theorem margin_invariant_preserved_witness :
    marginInvariant fmDemo1 ∧
    marginInvariant (rollOne fmDemo1 "CORNW14-1" "CORNW27-1") :=
  ⟨by decide,
    margin_invariant_preserved_amended
      (Relation.ReflTransGen.single
        (FMStep.roll "CORNW14-1" "CORNW27-1" (by decide) (by decide)))
      (by decide)⟩

/-! ## C2: roll preservation -/

theorem not_mem_keys_of_lookupA_none {κ ν : Type} [DecidableEq κ]
    (m : List (κ × ν)) (k : κ) (h : lookupA m k = none) : k ∉ m.map Prod.fst := by
  induction m with
  | nil => simp
  | cons hd tl ih =>
    by_cases hh : hd.1 = k
    · simp [lookupA, hh] at h
    · simp only [lookupA, if_neg hh] at h
      simp only [List.map_cons, List.mem_cons, not_or]
      exact ⟨fun he => hh he.symm, ih h⟩

theorem insertA_eq_append_of_lookupA_none {κ ν : Type} [DecidableEq κ]
    (m : List (κ × ν)) (k : κ) (v : ν) (h : lookupA m k = none) :
    insertA m k v = m ++ [(k, v)] := by
  induction m with
  | nil => rfl
  | cons hd tl ih =>
    by_cases hh : hd.1 = k
    · simp [lookupA, hh] at h
    · simp only [lookupA, if_neg hh] at h
      simp [insertA, hh, ih h]

/-- An order placed with `position_type = HEDGE` on the expiring contract. -/
def buyW14Hedge : FuturesOrder :=
  { contract_id := "CORNW14-1", order_type := OrderType.MARKET,
    side := OrderSide.BUY, quantity := 1, price := none,
    position_type := PositionType.HEDGE }

def fmHedge1 : FMState := runOrder fmDemo0 buyW14Hedge

/-- C2.  Roll preservation: when `weeks_to_expiry ≤ 0`, any open position
on the contract — for every position type — is transferred to the
successor.  REFUTED for HEDGE positions: `update_positions` only migrates
the `(contract, SPECULATIVE)` key (line 712).  A HEDGE position opened
through `place_order` stays keyed to the expired contract, which is
nonetheless deleted. -/
theorem roll_preservation_hedge_counterexample :
    place_order fmDemo0 buyW14Hedge = some (true, fmHedge1) ∧
    findRolls fmHedge1 14 1 nextW27 = [("CORNW14-1", "CORNW27-1")] ∧
    (lookupA fmHedge1.positions ("CORNW14-1", PositionType.HEDGE)).isSome ∧
    lookupA (rollPhase fmHedge1 (findRolls fmHedge1 14 1 nextW27)).positions
      ("CORNW27-1", PositionType.HEDGE) = none ∧
    lookupA (rollPhase fmHedge1 (findRolls fmHedge1 14 1 nextW27)).positions
      ("CORNW14-1", PositionType.HEDGE) =
      lookupA fmHedge1.positions ("CORNW14-1", PositionType.HEDGE) ∧
    lookupA (rollPhase fmHedge1 (findRolls fmHedge1 14 1 nextW27)).active_contracts
      "CORNW14-1" = none := by
  refine ⟨rfl, by decide, by decide, by decide, by decide, by decide⟩

/-- C2 (amended).  When the weekly update rolls a contract whose
`weeks_to_expiry ≤ 0` into a live successor, the open SPECULATIVE-type
position on it (the only type the code migrates) is transferred to the
successor key with unchanged signed quantity and unchanged `margin_held`,
its entry price becomes the successor's current price, and the expired
contract is removed. -/
theorem roll_preservation_speculative (s : FMState) (week year : ℤ)
    (next : ContractSpecification → Option String)
    (old_id new_id : String) (pos : FuturesPosition) (nc : FuturesContract)
    (_hroll : (old_id, new_id) ∈ findRolls s week year next)
    (hckeys : (s.active_contracts.map Prod.fst).Nodup)
    (hpkeys : (s.positions.map Prod.fst).Nodup)
    (hwf : keyConsistent s)
    (hpos : lookupA s.positions (old_id, PositionType.SPECULATIVE) = some pos)
    (hfree : lookupA s.positions (new_id, PositionType.SPECULATIVE) = none)
    (hnc : lookupA s.active_contracts new_id = some nc) :
    lookupA (rollOne s old_id new_id).positions (new_id, PositionType.SPECULATIVE) =
      some { contract_id := new_id, quantity := pos.quantity,
             average_price := nc.price, position_type := PositionType.SPECULATIVE,
             spec := nc.spec, unrealized_pnl := 0, realized_pnl := 0,
             margin_held := pos.margin_held } ∧
    lookupA (rollOne s old_id new_id).positions (old_id, PositionType.SPECULATIVE) = none ∧
    lookupA (rollOne s old_id new_id).active_contracts old_id = none := by
  obtain ⟨hci, hpt⟩ := hwf _ (lookupA_mem _ _ _ hpos)
  simp only at hci hpt
  have hne : old_id ≠ new_id := by
    intro he
    rw [he] at hpos
    rw [hpos] at hfree
    exact absurd hfree (by simp)
  have hkne : ((old_id, PositionType.SPECULATIVE) : String × PositionType) ≠
      (new_id, PositionType.SPECULATIVE) := by
    intro he
    exact hne (congrArg Prod.fst he)
  refine ⟨?_, ?_, ?_⟩
  · simp only [rollOne, hpos, rollPosition, hnc, hpt, hci]
    rw [lookupA_eraseA_ne _ _ _ hkne, lookupA_insertA_self]
  · simp only [rollOne, hpos, rollPosition, hnc, hpt, hci]
    have hnodup : ((insertA s.positions (new_id, PositionType.SPECULATIVE)
        { contract_id := new_id, quantity := pos.quantity,
          average_price := nc.price, position_type := PositionType.SPECULATIVE,
          spec := nc.spec, unrealized_pnl := 0, realized_pnl := 0,
          margin_held := pos.margin_held }).map Prod.fst).Nodup := by
      rw [insertA_eq_append_of_lookupA_none _ _ _ hfree]
      rw [List.map_append, List.nodup_append]
      refine ⟨hpkeys, by simp, ?_⟩
      intro a ha hb
      simp at hb
      rw [hb] at ha
      exact not_mem_keys_of_lookupA_none _ _ hfree ha
    exact lookupA_eraseA_self_of_nodup _ _ hnodup
  · simp only [rollOne, hpos, rollPosition, hnc]
    exact lookupA_eraseA_self_of_nodup _ _ hckeys

theorem roll_preservation_speculative_witness :
    lookupA (rollOne fmDemo1 "CORNW14-1" "CORNW27-1").positions
      ("CORNW27-1", PositionType.SPECULATIVE) =
      some { contract_id := "CORNW27-1", quantity := (1 : ℤ),
             average_price := 216, position_type := PositionType.SPECULATIVE,
             spec := cornSpec, unrealized_pnl := 0, realized_pnl := 0,
             margin_held := 107750 } ∧
    lookupA (rollOne fmDemo1 "CORNW14-1" "CORNW27-1").positions
      ("CORNW14-1", PositionType.SPECULATIVE) = none ∧
    lookupA (rollOne fmDemo1 "CORNW14-1" "CORNW27-1").active_contracts
      "CORNW14-1" = none := by
  have hmain := roll_preservation_speculative fmDemo1 14 1 nextW27
    "CORNW14-1" "CORNW27-1"
    { contract_id := "CORNW14-1", quantity := (1 : ℤ), average_price := 215 + 1/2,
      position_type := PositionType.SPECULATIVE, spec := cornSpec,
      unrealized_pnl := 0, realized_pnl := 0, margin_held := 107750 }
    cornW27 (by decide) (by decide) (by decide) (by decide) (by decide)
    (by decide) (by decide)
  exact hmain

/-! ## C3: market-order execution -/

theorem validateOrder_market (s : FMState) (o : FuturesOrder)
    (hc : (lookupA s.active_contracts o.contract_id).isSome)
    (hq : 0 < o.quantity) (hmkt : o.order_type = OrderType.MARKET) :
    validateOrder s o = true := by
  simp [validateOrder, hc, hq, hmkt]

/-- The SUGAR contract specification (`setup_softs_contracts`, lines 211-222);
prices are quoted in cents per pound. -/
def sugarSpec : ContractSpecification :=
  { name := "SUGAR", asset_class := AssetClass.SOFTS,
    contract_size := 112000, tick_size := 1/100, initial_margin_pct := 1/10 }

/-- A SUGAR contract at its default price 19.54; bid/ask open at 19.52/19.56. -/
def sugarW13 : FuturesContract := mkContract sugarSpec 13 1 (977/50)

def sugarState : FMState :=
  { active_contracts := [("SUGARW13-1", sugarW13)],
    positions := [], orders := [], total_margin_required := 0, capital := 300000 }

def buySugar : FuturesOrder :=
  { contract_id := "SUGARW13-1", order_type := OrderType.MARKET,
    side := OrderSide.BUY, quantity := 1, price := none,
    position_type := PositionType.SPECULATIVE }

/-- C3.  Market-order execution: the claim states the margin deducted is
`|quantity| × fill price × contract_size × initial margin %` for every
market order.  REFUTED for SOFTS contracts: `_calculate_contract_value`
divides the cents-quoted price by 100, so a BUY of one SUGAR contract at
ask 19.56 deducts 2190.72 (= 219072/100), not 19.56 × 112000 × 0.10 =
219072. -/
theorem market_order_softs_margin_counterexample :
    place_order sugarState buySugar = some (true, runOrder sugarState buySugar) ∧
    sugarState.capital - (runOrder sugarState buySugar).capital = 219072/100 ∧
    ((1 : ℚ) * sugarW13.ask * sugarSpec.contract_size * sugarSpec.initial_margin_pct)
      = 219072 ∧
    sugarState.capital - (runOrder sugarState buySugar).capital ≠
      (1 : ℚ) * sugarW13.ask * sugarSpec.contract_size * sugarSpec.initial_margin_pct := by
  refine ⟨rfl, by decide, by decide, by decide⟩

/-- C3 (amended).  For every MARKET order with positive quantity on a known
contract: the order fills at the contract's ask (BUY) or bid (SELL); the
margin deducted is `_calculate_contract_value(contract, qty, fill) ×
margin%`, which equals `|qty| × fill × contract_size × margin%` except for
SOFTS (price divided by 100) and FINANCIAL (fixed 1000 point value)
contracts; when no position exists under the `(contract, type)` key a
position is created with the signed order quantity and average price equal
to the fill; and the order is rejected with `False` and an unchanged state
whenever either margin gate — the pre-check at the contract's mid price by
the plain formula, or the fill-price requirement — exceeds available
capital. -/
theorem market_order_execution_amended (s : FMState) (o : FuturesOrder)
    (c : FuturesContract)
    (hmkt : o.order_type = OrderType.MARKET)
    (hq : 0 < o.quantity)
    (hc : lookupA s.active_contracts o.contract_id = some c) :
    ((((|o.quantity| : ℤ) : ℚ) * c.price * c.spec.contract_size *
        c.spec.initial_margin_pct ≤ s.capital) →
      (marginRequirement c o.quantity
        (if o.side = OrderSide.BUY then c.ask else c.bid) ≤ s.capital) →
      lookupA s.positions (o.contract_id, o.position_type) = none →
      orderAccepted s o = true ∧
      (runOrder s o).capital = s.capital - marginRequirement c o.quantity
        (if o.side = OrderSide.BUY then c.ask else c.bid) ∧
      lookupA (runOrder s o).positions (o.contract_id, o.position_type) =
        some { contract_id := o.contract_id,
               quantity := if o.side = OrderSide.BUY then o.quantity else -o.quantity,
               average_price := if o.side = OrderSide.BUY then c.ask else c.bid,
               position_type := o.position_type,
               spec := c.spec, unrealized_pnl := 0, realized_pnl := 0,
               margin_held := marginRequirement c o.quantity
                 (if o.side = OrderSide.BUY then c.ask else c.bid) }) ∧
    ((s.capital < ((|o.quantity| : ℤ) : ℚ) * c.price * c.spec.contract_size *
        c.spec.initial_margin_pct ∨
      s.capital < marginRequirement c o.quantity
        (if o.side = OrderSide.BUY then c.ask else c.bid)) →
      place_order s o = some (false, s)) := by
  have hval : validateOrder s o = true :=
    validateOrder_market s o (by rw [hc]; rfl) hq hmkt
  constructor
  · intro hplace hexec hnopos
    have hg1 : ¬ (((|o.quantity| : ℤ) : ℚ) * c.price * c.spec.contract_size *
        c.spec.initial_margin_pct > s.capital) := not_lt.mpr hplace
    have hg2 : ¬ (marginRequirement c o.quantity
        (if o.side = OrderSide.BUY then c.ask else c.bid) > s.capital) :=
      not_lt.mpr hexec
    have hpo : place_order s o = executeOrder s o := by
      simp only [place_order, hval, if_true, hc]
      rw [if_neg hg1, if_pos hmkt]
    have heo : executeOrder s o = some (true,
        recordTrade (applyFill s o c) c o.contract_id o.quantity) := by
      simp only [executeOrder, hc]
      rw [if_neg hg2]
    refine ⟨?_, ?_, ?_⟩
    · simp only [orderAccepted, hpo, heo]
    · simp only [runOrder, hpo, heo, recordTrade, applyFill, hnopos]
    · simp only [runOrder, hpo, heo, recordTrade, applyFill, hnopos]
      exact lookupA_insertA_self _ _ _
  · intro hrej
    simp only [place_order, hval, if_true, hc]
    rcases hrej with h1 | h2
    · rw [if_pos h1]
    · by_cases hg1 : ((|o.quantity| : ℤ) : ℚ) * c.price * c.spec.contract_size *
          c.spec.initial_margin_pct > s.capital
      · rw [if_pos hg1]
      · rw [if_neg hg1, if_pos hmkt]
        simp only [executeOrder, hc]
        rw [if_pos h2]

/-- The demo state with enough capital for a ten-lot CORN order. -/
def cornRich : FMState := { fmDemo0 with capital := 2000000 }

def buyW14Ten : FuturesOrder :=
  { contract_id := "CORNW14-1", order_type := OrderType.MARKET,
    side := OrderSide.BUY, quantity := 10, price := none,
    position_type := PositionType.SPECULATIVE }

theorem market_order_execution_witness :
    orderAccepted cornRich buyW14Ten = true ∧
    (runOrder cornRich buyW14Ten).capital = cornRich.capital -
      marginRequirement cornW14 10 cornW14.ask ∧
    lookupA (runOrder cornRich buyW14Ten).positions
      ("CORNW14-1", PositionType.SPECULATIVE) =
      some { contract_id := "CORNW14-1", quantity := 10,
             average_price := cornW14.ask,
             position_type := PositionType.SPECULATIVE,
             spec := cornSpec, unrealized_pnl := 0, realized_pnl := 0,
             margin_held := marginRequirement cornW14 10 cornW14.ask } ∧
    marginRequirement cornW14 10 cornW14.ask = 10 * cornW14.ask * 5000 * (10/100) := by
  have hmain := (market_order_execution_amended cornRich buyW14Ten cornW14
    rfl (by decide) (by decide)).1 (by decide) (by decide) (by decide)
  exact ⟨hmain.1, hmain.2.1, hmain.2.2, by decide⟩

/-! ## C6: position averaging on same-direction adds -/

/-- C6.  When an order adds to an existing position in the same direction
(no sign flip or reduction), the entry price is replaced by the new fill
price exactly when the new trade's size exceeds the existing position's
size and is left unchanged otherwise, and the quantity becomes the sum of
the old and new signed quantities (margin for the increment is added on
top). -/
theorem position_averaging_rule (s : FMState) (o : FuturesOrder)
    (c : FuturesContract) (pos : FuturesPosition)
    (hc : lookupA s.active_contracts o.contract_id = some c)
    (hpos : lookupA s.positions (o.contract_id, o.position_type) = some pos)
    (hsame : ¬ ((0 < pos.quantity ∧
        (if o.side = OrderSide.BUY then o.quantity else -o.quantity) < 0) ∨
        (pos.quantity < 0 ∧
        0 < (if o.side = OrderSide.BUY then o.quantity else -o.quantity))))
    (hexec : marginRequirement c o.quantity
        (if o.side = OrderSide.BUY then c.ask else c.bid) ≤ s.capital) :
    lookupA (execState s o).positions (o.contract_id, o.position_type) =
      some { pos with
        quantity := pos.quantity +
          (if o.side = OrderSide.BUY then o.quantity else -o.quantity),
        average_price :=
          if |pos.quantity| < |if o.side = OrderSide.BUY then o.quantity else -o.quantity|
          then (if o.side = OrderSide.BUY then c.ask else c.bid)
          else pos.average_price,
        margin_held := pos.margin_held + marginRequirement c o.quantity
          (if o.side = OrderSide.BUY then c.ask else c.bid) } := by
  have hg2 : ¬ (marginRequirement c o.quantity
      (if o.side = OrderSide.BUY then c.ask else c.bid) > s.capital) :=
    not_lt.mpr hexec
  simp only [execState, executeOrder, hc]
  rw [if_neg hg2]
  simp only [applyFill, hpos]
  rw [if_neg hsame]
  simp only [recordTrade]
  exact lookupA_insertA_self _ _ _

/-- A two-lot CORN position entered at 200, away from the current quote. -/
def fmAvgState : FMState :=
  { active_contracts := [("CORNW14-1", cornW14)],
    positions := [(("CORNW14-1", PositionType.SPECULATIVE),
      { contract_id := "CORNW14-1", quantity := 2, average_price := 200,
        position_type := PositionType.SPECULATIVE, spec := cornSpec,
        unrealized_pnl := 0, realized_pnl := 0, margin_held := 200000 })],
    orders := [], total_margin_required := 200000, capital := 2000000 }

def buyW14Five : FuturesOrder :=
  { contract_id := "CORNW14-1", order_type := OrderType.MARKET,
    side := OrderSide.BUY, quantity := 5, price := none,
    position_type := PositionType.SPECULATIVE }

theorem position_averaging_rule_witness :
    lookupA (execState fmAvgState buyW14).positions
      ("CORNW14-1", PositionType.SPECULATIVE) =
      some { contract_id := "CORNW14-1", quantity := 3, average_price := 200,
             position_type := PositionType.SPECULATIVE, spec := cornSpec,
             unrealized_pnl := 0, realized_pnl := 0,
             margin_held := 200000 + marginRequirement cornW14 1 cornW14.ask } ∧
    lookupA (execState fmAvgState buyW14Five).positions
      ("CORNW14-1", PositionType.SPECULATIVE) =
      some { contract_id := "CORNW14-1", quantity := 7,
             average_price := cornW14.ask,
             position_type := PositionType.SPECULATIVE, spec := cornSpec,
             unrealized_pnl := 0, realized_pnl := 0,
             margin_held := 200000 + marginRequirement cornW14 5 cornW14.ask } := by
  constructor
  · have h1 := position_averaging_rule fmAvgState buyW14 cornW14
      { contract_id := "CORNW14-1", quantity := 2, average_price := 200,
        position_type := PositionType.SPECULATIVE, spec := cornSpec,
        unrealized_pnl := 0, realized_pnl := 0, margin_held := 200000 }
      (by decide) (by decide) (by decide) (by decide)
    simpa using h1
  · have h2 := position_averaging_rule fmAvgState buyW14Five cornW14
      { contract_id := "CORNW14-1", quantity := 2, average_price := 200,
        position_type := PositionType.SPECULATIVE, spec := cornSpec,
        unrealized_pnl := 0, realized_pnl := 0, margin_held := 200000 }
      (by decide) (by decide) (by decide) (by decide)
    simpa using h2

/-! ## C10: the closing-order margin gate -/

/-- C10.  `place_order` computes the margin requirement from the full order
quantity and the contract's current price and rejects the order whenever it
exceeds current capital — regardless of the existing position book, so a
closing order is gated exactly like an opening one and the state is left
unchanged. -/
theorem closing_order_margin_gate (s : FMState) (o : FuturesOrder)
    (c : FuturesContract)
    (hc : lookupA s.active_contracts o.contract_id = some c)
    (hm : s.capital < ((|o.quantity| : ℤ) : ℚ) * c.price * c.spec.contract_size *
      c.spec.initial_margin_pct) :
    place_order s o = some (false, s) := by
  by_cases hv : validateOrder s o = true
  · simp only [place_order, hv, if_true, hc]
    rw [if_pos hm]
  · simp only [place_order]
    rw [if_neg hv]

/-- A ten-lot long CORN position held with only 1000 of capital: the margin
pre-check (1,075,000) dwarfs capital, so the closing SELL of the full size
is rejected and the position cannot be closed in one order. -/
def fmPoor : FMState :=
  { active_contracts := [("CORNW14-1", cornW14)],
    positions := [(("CORNW14-1", PositionType.SPECULATIVE),
      { contract_id := "CORNW14-1", quantity := 10, average_price := 215 + 1/2,
        position_type := PositionType.SPECULATIVE, spec := cornSpec,
        unrealized_pnl := 0, realized_pnl := 0, margin_held := 107750 })],
    orders := [], total_margin_required := 107750, capital := 1000 }

def sellW14Ten : FuturesOrder :=
  { contract_id := "CORNW14-1", order_type := OrderType.MARKET,
    side := OrderSide.SELL, quantity := 10, price := none,
    position_type := PositionType.SPECULATIVE }

theorem closing_order_margin_gate_witness :
    (lookupA fmPoor.positions ("CORNW14-1", PositionType.SPECULATIVE)).isSome = true ∧
    fmPoor.capital < 10 * cornW14.price * 5000 * (10/100) ∧
    place_order fmPoor sellW14Ten = some (false, fmPoor) :=
  ⟨by decide, by decide,
    closing_order_margin_gate fmPoor sellW14Ten cornW14 (by decide) (by decide)⟩

/-! ## TenderManager: sealed-bid auction evaluation
(`evaluate_offers`, lines 2554-2640).

`sorted(all_offers, key=lambda x: x.price)` is Python's stable ascending
sort; `List.insertionSort` below is also stable, hence extensionally the
same function on any input. -/

inductive OfferStatus
  | PENDING | ACCEPTED | PARTIALLY_ACCEPTED | REJECTED
deriving DecidableEq

structure TenderOffer where
  participant : String
  origin : String
  quantity : ℤ
  num_vessels : ℤ
  price : ℚ
  status : OfferStatus
  awarded_quantity : ℤ
deriving DecidableEq

/-- Price order on offers (the auction's sort key). -/
def priceLE (a b : TenderOffer) : Prop := a.price ≤ b.price

instance : DecidableRel priceLE := fun a b => by unfold priceLE; infer_instance

instance : IsTotal TenderOffer priceLE := ⟨fun a b => le_total a.price b.price⟩

instance : IsTrans TenderOffer priceLE := ⟨fun _ _ _ hab hbc => le_trans hab hbc⟩

/-- The award loop of `evaluate_offers` (lines 2593-2625): walk the sorted
offers against the remaining quantity, set each offer's status, and record
awards.  Python's `//` on these positive ints is floor division,
`Int.fdiv`. -/
def processOffers (lowest_price : ℚ) (vessel_capacity : ℤ) :
    List TenderOffer → ℤ → List TenderOffer
  | [], _ => []
  | offer :: rest, remaining =>
    if remaining < vessel_capacity then
      { offer with status := OfferStatus.REJECTED } ::
        processOffers lowest_price vessel_capacity rest remaining
    else
      let possible_vessels := min offer.num_vessels (remaining.fdiv vessel_capacity)
      if 0 < possible_vessels then
        let award_quantity := possible_vessels * vessel_capacity
        if offer.price ≤ lowest_price * 1.05 then
          { offer with
            status := if award_quantity = offer.quantity then OfferStatus.ACCEPTED
                      else OfferStatus.PARTIALLY_ACCEPTED,
            awarded_quantity := award_quantity } ::
            processOffers lowest_price vessel_capacity rest (remaining - award_quantity)
        else
          { offer with status := OfferStatus.REJECTED } ::
            processOffers lowest_price vessel_capacity rest remaining
      else
        { offer with status := OfferStatus.REJECTED } ::
          processOffers lowest_price vessel_capacity rest remaining

/-- `evaluate_offers` on the offers of one tender, returning the evaluated
offer list (the Python method mutates the offers in place and returns the
awards grouped by participant). -/
def evaluate_offers (total_quantity vessel_capacity : ℤ)
    (offers : List TenderOffer) : List TenderOffer :=
  match offers with
  | [] => []
  | _ =>
    let sorted_offers := List.insertionSort priceLE offers
    let lowest_price := match sorted_offers with
      | [] => 0
      | o :: _ => o.price
    processOffers lowest_price vessel_capacity sorted_offers total_quantity

theorem processOffers_sum_le (lo : ℚ) (cap : ℤ) (hcap : 0 < cap) :
    ∀ (l : List TenderOffer) (r : ℤ), 0 ≤ r →
    (∀ o ∈ l, o.awarded_quantity = 0) →
    ((processOffers lo cap l r).map (fun o => o.awarded_quantity)).sum ≤ r := by
  intro l
  induction l with
  | nil => intro r hr _; simpa [processOffers] using hr
  | cons offer rest ih =>
    intro r hr hz
    have hz0 : offer.awarded_quantity = 0 := hz offer (by simp)
    have hzr : ∀ o ∈ rest, o.awarded_quantity = 0 := fun o ho => hz o (by simp [ho])
    by_cases h1 : r < cap
    · simp only [processOffers, if_pos h1, List.map_cons, List.sum_cons, hz0]
      have := ih r hr hzr
      linarith
    · simp only [processOffers, if_neg h1]
      by_cases h2 : 0 < min offer.num_vessels (r.fdiv cap)
      · rw [if_pos h2]
        by_cases h3 : offer.price ≤ lo * 1.05
        · rw [if_pos h3]
          simp only [List.map_cons, List.sum_cons]
          have haw : min offer.num_vessels (r.fdiv cap) * cap ≤ r := by
            have hd : r.fdiv cap = r / cap := Int.fdiv_eq_ediv r (le_of_lt hcap)
            have h4 : min offer.num_vessels (r.fdiv cap) ≤ r.fdiv cap := min_le_right _ _
            have h5 : min offer.num_vessels (r.fdiv cap) * cap ≤ r.fdiv cap * cap :=
              mul_le_mul_of_nonneg_right h4 (le_of_lt hcap)
            calc min offer.num_vessels (r.fdiv cap) * cap
                ≤ r.fdiv cap * cap := h5
              _ ≤ r := by rw [hd]; exact Int.ediv_mul_le r (ne_of_gt hcap)
          have hrest := ih (r - min offer.num_vessels (r.fdiv cap) * cap)
            (by linarith) hzr
          linarith
        · rw [if_neg h3]
          simp only [List.map_cons, List.sum_cons, hz0]
          have := ih r hr hzr
          linarith
      · rw [if_neg h2]
        simp only [List.map_cons, List.sum_cons, hz0]
        have := ih r hr hzr
        linarith

theorem processOffers_band (lo : ℚ) (cap : ℤ) :
    ∀ (l : List TenderOffer) (r : ℤ),
    ∀ o ∈ processOffers lo cap l r,
    (o.status = OfferStatus.ACCEPTED ∨ o.status = OfferStatus.PARTIALLY_ACCEPTED) →
    o.price ≤ lo * 1.05 := by
  intro l
  induction l with
  | nil => intro r o ho; simp [processOffers] at ho
  | cons offer rest ih =>
    intro r o ho hst
    by_cases h1 : r < cap
    · simp only [processOffers, if_pos h1, List.mem_cons] at ho
      rcases ho with rfl | ho
      · simp at hst
      · exact ih r o ho hst
    · simp only [processOffers, if_neg h1] at ho
      by_cases h2 : 0 < min offer.num_vessels (r.fdiv cap)
      · rw [if_pos h2] at ho
        by_cases h3 : offer.price ≤ lo * 1.05
        · rw [if_pos h3] at ho
          simp only [List.mem_cons] at ho
          rcases ho with rfl | ho
          · exact h3
          · exact ih _ o ho hst
        · rw [if_neg h3] at ho
          simp only [List.mem_cons] at ho
          rcases ho with rfl | ho
          · simp at hst
          · exact ih r o ho hst
      · rw [if_neg h2] at ho
        simp only [List.mem_cons] at ho
        rcases ho with rfl | ho
        · simp at hst
        · exact ih r o ho hst

theorem processOffers_rejected_zero (lo : ℚ) (cap : ℤ) :
    ∀ (l : List TenderOffer) (r : ℤ),
    (∀ o ∈ l, o.awarded_quantity = 0) →
    ∀ o ∈ processOffers lo cap l r,
    o.status = OfferStatus.REJECTED → o.awarded_quantity = 0 := by
  intro l
  induction l with
  | nil => intro r _ o ho; simp [processOffers] at ho
  | cons offer rest ih =>
    intro r hz o ho hst
    have hz0 : offer.awarded_quantity = 0 := hz offer (by simp)
    have hzr : ∀ o ∈ rest, o.awarded_quantity = 0 := fun o ho => hz o (by simp [ho])
    by_cases h1 : r < cap
    · simp only [processOffers, if_pos h1, List.mem_cons] at ho
      rcases ho with rfl | ho
      · exact hz0
      · exact ih r hzr o ho hst
    · simp only [processOffers, if_neg h1] at ho
      by_cases h2 : 0 < min offer.num_vessels (r.fdiv cap)
      · rw [if_pos h2] at ho
        by_cases h3 : offer.price ≤ lo * 1.05
        · rw [if_pos h3] at ho
          simp only [List.mem_cons] at ho
          rcases ho with rfl | ho
          · exfalso
            simp only at hst
            by_cases h4 : min offer.num_vessels (r.fdiv cap) * cap = offer.quantity
            · rw [if_pos h4] at hst; exact absurd hst (by simp)
            · rw [if_neg h4] at hst; exact absurd hst (by simp)
          · exact ih _ hzr o ho hst
        · rw [if_neg h3] at ho
          simp only [List.mem_cons] at ho
          rcases ho with rfl | ho
          · exact hz0
          · exact ih r hzr o ho hst
      · rw [if_neg h2] at ho
        simp only [List.mem_cons] at ho
        rcases ho with rfl | ho
        · exact hz0
        · exact ih r hzr o ho hst

/-- C4.  Auction correctness: for a tender evaluated with at least one
submitted offer (positive vessel capacity, nonnegative total, fresh offers),
the awarded quantities sum to at most the tender total; every awarded
offer's price is within 5% of the lowest submitted price; and every
rejected offer keeps `awarded_quantity = 0` — in particular those rejected
because the remaining quantity is below one vessel capacity. -/
theorem tender_auction_correct (total cap : ℤ) (offers : List TenderOffer)
    (hcap : 0 < cap) (htot : 0 ≤ total)
    (hzero : ∀ o ∈ offers, o.awarded_quantity = 0)
    (hne : offers ≠ []) :
    (((evaluate_offers total cap offers).map (fun o => o.awarded_quantity)).sum
      ≤ total) ∧
    (∃ lo, lo ∈ offers.map (fun o => o.price) ∧
      (∀ p ∈ offers.map (fun o => o.price), lo ≤ p) ∧
      (∀ o ∈ evaluate_offers total cap offers,
        o.status = OfferStatus.ACCEPTED ∨ o.status = OfferStatus.PARTIALLY_ACCEPTED →
        o.price ≤ lo * 1.05)) ∧
    (∀ o ∈ evaluate_offers total cap offers,
      o.status = OfferStatus.REJECTED → o.awarded_quantity = 0) := by
  obtain ⟨a, as, ha⟩ : ∃ a as, offers = a :: as := by
    cases offers with
    | nil => exact absurd rfl hne
    | cons a as => exact ⟨a, as, rfl⟩
  have hperm : (List.insertionSort priceLE offers).Perm offers :=
    List.perm_insertionSort priceLE offers
  have hsortz : ∀ o ∈ List.insertionSort priceLE offers, o.awarded_quantity = 0 :=
    fun o ho => hzero o (hperm.mem_iff.mp ho)
  obtain ⟨s0, srest, hs⟩ :
      ∃ s0 srest, List.insertionSort priceLE offers = s0 :: srest := by
    cases hcase : List.insertionSort priceLE offers with
    | nil =>
      exfalso
      have hlen : (List.insertionSort priceLE offers).length = offers.length :=
        (List.perm_insertionSort priceLE offers).length_eq
      rw [hcase, ha] at hlen
      simp at hlen
    | cons s0 srest => exact ⟨s0, srest, rfl⟩
  have heval : evaluate_offers total cap offers =
      processOffers s0.price cap (s0 :: srest) total := by
    rw [ha]
    simp only [evaluate_offers]
    rw [← ha, hs]
  have hsorted : List.Sorted priceLE (List.insertionSort priceLE offers) :=
    List.sorted_insertionSort priceLE offers
  refine ⟨?_, ⟨s0.price, ?_, ?_, ?_⟩, ?_⟩
  · rw [heval, ← hs]
    exact processOffers_sum_le _ cap hcap _ total htot hsortz
  · have : s0 ∈ offers := hperm.mem_iff.mp (by rw [hs]; simp)
    exact List.mem_map_of_mem _ this
  · intro p hp
    obtain ⟨o, ho, rfl⟩ := List.mem_map.mp hp
    have ho' : o ∈ s0 :: srest := by rw [← hs]; exact hperm.mem_iff.mpr ho
    rcases List.mem_cons.mp ho' with rfl | ho2
    · exact le_refl _
    · rw [hs] at hsorted
      exact (List.pairwise_cons.mp hsorted).1 o ho2
  · intro o ho hst
    rw [heval, ← hs] at ho
    exact processOffers_band s0.price cap _ total o ho hst
  · intro o ho hst
    rw [heval, ← hs] at ho
    exact processOffers_rejected_zero s0.price cap _ total hsortz o ho hst

/-- The spec's concrete tender scenario: 150,000 MT, SUPRAMAX capacity
55,000, offers at 200/202/210. -/
def demoOffers : List TenderOffer :=
  [{ participant := "PLAYER", origin := "SANTOS", quantity := 82500,
     num_vessels := 2, price := 200, status := OfferStatus.PENDING,
     awarded_quantity := 0 },
   { participant := "CARGILL", origin := "SANTOS", quantity := 55000,
     num_vessels := 1, price := 202, status := OfferStatus.PENDING,
     awarded_quantity := 0 },
   { participant := "COFCO", origin := "ROSARIO", quantity := 55000,
     num_vessels := 1, price := 210, status := OfferStatus.PENDING,
     awarded_quantity := 0 }]

theorem tender_auction_correct_witness :
    (((evaluate_offers 150000 55000 demoOffers).map
      (fun o => o.awarded_quantity)).sum ≤ 150000) ∧
    (∃ lo, lo ∈ demoOffers.map (fun o => o.price) ∧
      (∀ p ∈ demoOffers.map (fun o => o.price), lo ≤ p) ∧
      (∀ o ∈ evaluate_offers 150000 55000 demoOffers,
        o.status = OfferStatus.ACCEPTED ∨ o.status = OfferStatus.PARTIALLY_ACCEPTED →
        o.price ≤ lo * 1.05)) ∧
    (∀ o ∈ evaluate_offers 150000 55000 demoOffers,
      o.status = OfferStatus.REJECTED → o.awarded_quantity = 0) :=
  tender_auction_correct 150000 55000 demoOffers (by decide) (by decide)
    (by decide) (by decide)

/-! ## C5: the weekly tick pipeline
(`Game.update`, lines 5963-5977 and 6081-6083) -/

/-- The subsystem calls of the weekly game loop. -/
inductive SubsystemStep
  | market_update       -- Market.update_markets (crop cycles, prices, freight, ports)
  | tender_deliveries   -- Game.check_tender_deliveries
  | trade_lifecycle     -- Game.update_trades (arrivals, payments)
  | storage_costs       -- Game.handle_storage_costs (accrual / forced liquidation)
  | tender_update       -- TenderManager.update_tenders (generation + evaluation)
  | futures_update      -- FuturesManager.update_positions (rolls, repricing, P&L)
deriving DecidableEq

/-- The calls `Game.update` makes when the SPACE key advances the week
(lines 5964-5971), in program order.  `FuturesManager.update_positions` is
not among them: it runs from the FUTURES-view input branch (line 6083) and
self-limits to once per week via `_last_update_week`. -/
def weeklyTick : List SubsystemStep :=
  [SubsystemStep.market_update, SubsystemStep.tender_deliveries,
   SubsystemStep.trade_lifecycle, SubsystemStep.storage_costs,
   SubsystemStep.tender_update]

/-- The phases of `Market.update_markets` (lines 3572-3592) in program
order; the crop-cycle update runs inside `_update_commodity_markets`
(line 3612) before each quote's price move. -/
inductive MarketPhase
  | commodity_markets | freight_markets | port_conditions
  | local_market_conditions | dest_quote_refresh | inventory_replenishment
  | advance_time
deriving DecidableEq

def marketUpdatePhases : List MarketPhase :=
  [MarketPhase.commodity_markets, MarketPhase.freight_markets,
   MarketPhase.port_conditions, MarketPhase.local_market_conditions,
   MarketPhase.dest_quote_refresh, MarketPhase.inventory_replenishment,
   MarketPhase.advance_time]

/-- C5.  Weekly pipeline ordering: the claim places the futures position
update inside every tick, before tender evaluation, and tender evaluation
before the trade-lifecycle advance.  REFUTED: the futures update is not
part of the weekly tick at all (it runs from the FUTURES-view input
handler), and the tick advances the trade lifecycle BEFORE evaluating
tenders. -/
theorem weekly_pipeline_order_counterexample :
    SubsystemStep.futures_update ∉ weeklyTick ∧
    weeklyTick.indexOf SubsystemStep.trade_lifecycle <
      weeklyTick.indexOf SubsystemStep.tender_update := by decide

/-- C5 (amended).  Each weekly tick executes market update (crop cycles,
prices, freight, port conditions, in that order inside it) → tender
delivery check → trade-lifecycle advance → storage cost accrual / forced
liquidation → tender update (generation and evaluation); the futures
position update is not part of the tick and runs only from the
futures-view input handler, at most once per week. -/
theorem weekly_pipeline_order_amended :
    SubsystemStep.futures_update ∉ weeklyTick ∧
    weeklyTick.indexOf SubsystemStep.market_update <
      weeklyTick.indexOf SubsystemStep.tender_deliveries ∧
    weeklyTick.indexOf SubsystemStep.tender_deliveries <
      weeklyTick.indexOf SubsystemStep.trade_lifecycle ∧
    weeklyTick.indexOf SubsystemStep.trade_lifecycle <
      weeklyTick.indexOf SubsystemStep.storage_costs ∧
    weeklyTick.indexOf SubsystemStep.storage_costs <
      weeklyTick.indexOf SubsystemStep.tender_update ∧
    marketUpdatePhases.indexOf MarketPhase.commodity_markets <
      marketUpdatePhases.indexOf MarketPhase.freight_markets ∧
    marketUpdatePhases.indexOf MarketPhase.freight_markets <
      marketUpdatePhases.indexOf MarketPhase.port_conditions := by decide

/-! ## StorageManager: monthly cost accrual and forced liquidation
(`update_storage_costs` lines 4090-4107, `Game.handle_storage_costs`
4819-4832, `Game._handle_forced_liquidation` 4834-4851,
`StorageFacility.remove_grain` 2938-2946) -/

structure StorageFacility where
  name : String
  monthly_cost : ℚ
  current_inventory : List (String × ℤ)
deriving DecidableEq

structure StorageTransaction where
  facility : String
  commodity : String
  quantity : ℤ
  entry_price : ℚ
  storage_cost_paid : ℚ
deriving DecidableEq

/-- The slice of game state the storage-cost path touches.  `fob_bids`
maps `(commodity, origin)` to the fob quote's current bid; `some none`
models a quote object whose `bid` is `None` (sold-out inventory). -/
structure StorageState where
  facilities : List (String × StorageFacility)
  last_cost_week : ℤ
  capital : ℚ
  storage_positions : List StorageTransaction
  fob_bids : List ((String × String) × Option ℚ)
deriving DecidableEq

/-- One facility's monthly cost: Σ `quantity × monthly_cost` over its
inventory entries. -/
def facilityMonthlyCost (f : StorageFacility) : ℚ :=
  (f.current_inventory.map fun p => (p.2 : ℚ) * f.monthly_cost).sum

/-- `StorageManager.update_storage_costs`: on a week divisible by 4 that
was not yet charged, collect each facility's positive monthly cost and
remember the week. -/
def update_storage_costs (st : StorageState) (current_week : ℤ) :
    List (String × ℚ) × StorageState :=
  if current_week % 4 = 0 ∧ current_week ≠ st.last_cost_week then
    (st.facilities.filterMap fun p =>
      if p.2.current_inventory ≠ [] ∧ 0 < facilityMonthlyCost p.2 then
        some (p.1, facilityMonthlyCost p.2)
      else none,
     { st with last_cost_week := current_week })
  else ([], st)

/-- `StorageFacility.remove_grain` (the `available_capacity` counter plays
no role in the liquidation path and is not modelled). -/
def facilityRemoveGrain (f : StorageFacility) (commodity : String)
    (quantity : ℤ) : Bool × StorageFacility :=
  match lookupA f.current_inventory commodity with
  | none => (false, f)
  | some q =>
    if q < quantity then (false, f)
    else (true,
      { f with current_inventory := insertA f.current_inventory commodity (q - quantity) })

/-- `StorageManager.remove_grain`, reduced to the success flag and the
facility mutation (the returned handling cost is unused by the forced
liquidation caller). -/
def remove_grain (st : StorageState) (location commodity : String)
    (quantity : ℤ) : Bool × StorageState :=
  match lookupA st.facilities location with
  | none => (false, st)
  | some f =>
    let res := facilityRemoveGrain f commodity quantity
    if res.1 then (true, { st with facilities := insertA st.facilities location res.2 })
    else (false, st)

/-- One iteration of `_handle_forced_liquidation`: credit the lot's value
at a 5% markdown to the prevailing bid, then remove it from storage.
`none` models the `TypeError` Python raises multiplying a `None` bid. -/
def liquidateOne (st : StorageState) (pos : StorageTransaction) :
    Option StorageState :=
  match lookupA st.fob_bids (pos.commodity, pos.facility) with
  | none => some st
  | some none => none
  | some (some bid) =>
    let liquidation_price := bid * 0.95
    let revenue := liquidation_price * (pos.quantity : ℚ)
    let st1 : StorageState := { st with capital := st.capital + revenue }
    let res := remove_grain st1 pos.facility pos.commodity pos.quantity
    if res.1 then
      some { res.2 with storage_positions := res.2.storage_positions.erase pos }
    else some res.2

/-- `_handle_forced_liquidation`: iterate over a slice copy of the
positions list, liquidating each in turn. -/
def handle_forced_liquidation (st : StorageState) : Option StorageState :=
  List.foldlM liquidateOne st st.storage_positions

/-- `Game.handle_storage_costs`. -/
def handle_storage_costs (st : StorageState) (current_week : ℤ) :
    Option StorageState :=
  let res := update_storage_costs st current_week
  let total_cost := (res.1.map fun p => p.2).sum
  if 0 < total_cost then
    if total_cost > res.2.capital then handle_forced_liquidation res.2
    else some { res.2 with
      capital := res.2.capital - total_cost,
      storage_positions := res.2.storage_positions.map fun pos =>
        { pos with storage_cost_paid := pos.storage_cost_paid +
            ((lookupA res.1 pos.facility).getD 0) } }
  else some res.2

/-- The total monthly charge `handle_storage_costs` computes for a week. -/
def totalStorageCost (st : StorageState) (week : ℤ) : ℚ :=
  ((update_storage_costs st week).1.map fun p => p.2).sum

/-- A facility after a lot of the given commodity is removed. -/
def consumeLot (f : StorageFacility) (commodity : String) (qty q : ℤ) :
    StorageFacility :=
  { f with current_inventory := insertA f.current_inventory commodity (q - qty) }

theorem liquidateOne_some (st : StorageState) (pos : StorageTransaction)
    (b : ℚ) (f : StorageFacility) (q : ℤ)
    (hbid : lookupA st.fob_bids (pos.commodity, pos.facility) = some (some b))
    (hf : lookupA st.facilities pos.facility = some f)
    (hq : lookupA f.current_inventory pos.commodity = some q)
    (hle : pos.quantity ≤ q) :
    ∃ st', liquidateOne st pos = some st' ∧
      st'.capital = st.capital + b * 0.95 * (pos.quantity : ℚ) ∧
      st'.storage_positions = st.storage_positions.erase pos ∧
      st'.fob_bids = st.fob_bids ∧
      st'.last_cost_week = st.last_cost_week ∧
      st'.facilities = insertA st.facilities pos.facility
        (consumeLot f pos.commodity pos.quantity q) := by
  have hrun : liquidateOne st pos = some
      { facilities := insertA st.facilities pos.facility
          (consumeLot f pos.commodity pos.quantity q),
        last_cost_week := st.last_cost_week,
        capital := st.capital + b * 0.95 * (pos.quantity : ℚ),
        storage_positions := st.storage_positions.erase pos,
        fob_bids := st.fob_bids } := by
    simp only [liquidateOne, hbid, remove_grain, facilityRemoveGrain, hf, hq]
    rw [if_neg (not_lt.mpr hle)]
    simp [consumeLot]
  exact ⟨_, hrun, rfl, rfl, rfl, rfl, rfl⟩

theorem liquidation_fold (bidOf : StorageTransaction → ℚ) :
    ∀ (l : List StorageTransaction) (st : StorageState),
    st.storage_positions = l →
    ((l.map fun p => (p.facility, p.commodity)).Nodup) →
    (∀ p ∈ l, lookupA st.fob_bids (p.commodity, p.facility) = some (some (bidOf p))) →
    (∀ p ∈ l, ∃ f q, lookupA st.facilities p.facility = some f ∧
        lookupA f.current_inventory p.commodity = some q ∧ p.quantity ≤ q) →
    ∃ st', List.foldlM liquidateOne st l = some st' ∧
      st'.storage_positions = [] ∧
      st'.capital = st.capital + (l.map fun p => bidOf p * 0.95 * (p.quantity : ℚ)).sum := by
  intro l
  induction l with
  | nil =>
    intro st hpos _ _ _
    exact ⟨st, rfl, hpos, by simp⟩
  | cons p rest ih =>
    intro st hpos hnd hbid hinv
    simp only [List.map_cons, List.nodup_cons] at hnd
    obtain ⟨f, q, hf, hq, hle⟩ := hinv p (by simp)
    obtain ⟨st1, h1, hcap1, hsp1, hfob1, hlast1, hfac1⟩ :=
      liquidateOne_some st p (bidOf p) f q (hbid p (by simp)) hf hq hle
    have hsp1' : st1.storage_positions = rest := by
      rw [hsp1, hpos, List.erase_cons_head]
    have hbid' : ∀ p' ∈ rest, lookupA st1.fob_bids (p'.commodity, p'.facility) =
        some (some (bidOf p')) := by
      intro p' hp'
      rw [hfob1]
      exact hbid p' (by simp [hp'])
    have hinv' : ∀ p' ∈ rest, ∃ f' q',
        lookupA st1.facilities p'.facility = some f' ∧
        lookupA f'.current_inventory p'.commodity = some q' ∧
        p'.quantity ≤ q' := by
      intro p' hp'
      obtain ⟨f', q', hf', hq', hle'⟩ := hinv p' (by simp [hp'])
      by_cases hfac : p'.facility = p.facility
      · have hcom : p.commodity ≠ p'.commodity := by
          intro he
          apply hnd.1
          have hmem : (p'.facility, p'.commodity) ∈
              rest.map fun r => (r.facility, r.commodity) :=
            List.mem_map_of_mem _ hp'
          rw [hfac, ← he] at hmem
          exact hmem
        have hff : f' = f := by
          rw [hfac] at hf'
          rw [hf'] at hf
          exact Option.some.inj hf
        refine ⟨consumeLot f p.commodity p.quantity q, q', ?_, ?_, hle'⟩
        · rw [hfac1, hfac]
          exact lookupA_insertA_self _ _ _
        · simp only [consumeLot]
          rw [lookupA_insertA_ne _ _ _ _ hcom]
          rw [← hff]
          exact hq'
      · refine ⟨f', q', ?_, hq', hle'⟩
        rw [hfac1]
        rw [lookupA_insertA_ne _ _ _ _ (fun he => hfac he.symm)]
        exact hf'
    obtain ⟨st', h2, hsp2, hcap2⟩ := ih st1 hsp1' hnd.2 hbid' hinv'
    refine ⟨st', ?_, hsp2, ?_⟩
    · simp only [List.foldlM, h1, Option.bind_eq_bind, Option.some_bind]
      exact h2
    · rw [hcap2, hcap1]
      simp only [List.map_cons, List.sum_cons]
      ring

/-- C7.  On every 4th week (not yet charged), the accrual computes
`Σ quantity × monthly_cost` per facility with inventory; when the total
exceeds capital the forced-liquidation routine sells every open storage lot
at a 5% markdown to the prevailing bid (crediting `bid × 0.95 × quantity`
per lot and removing the lot); when capital suffices the total is deducted
from capital and the lots remain. -/
theorem storage_costs_monthly (st : StorageState) (week : ℤ)
    (bidOf : StorageTransaction → ℚ)
    (hw4 : week % 4 = 0) (hwn : week ≠ st.last_cost_week)
    (hnd : (st.storage_positions.map fun p => (p.facility, p.commodity)).Nodup)
    (hbid : ∀ p ∈ st.storage_positions,
      lookupA st.fob_bids (p.commodity, p.facility) = some (some (bidOf p)))
    (hinv : ∀ p ∈ st.storage_positions, ∃ f q,
      lookupA st.facilities p.facility = some f ∧
      lookupA f.current_inventory p.commodity = some q ∧ p.quantity ≤ q) :
    (0 < totalStorageCost st week → st.capital < totalStorageCost st week →
      ∃ st', handle_storage_costs st week = some st' ∧
        st'.storage_positions = [] ∧
        st'.capital = st.capital +
          (st.storage_positions.map fun p =>
            bidOf p * 0.95 * (p.quantity : ℚ)).sum) ∧
    (0 < totalStorageCost st week → totalStorageCost st week ≤ st.capital →
      ∃ st', handle_storage_costs st week = some st' ∧
        st'.capital = st.capital - totalStorageCost st week ∧
        st'.storage_positions.length = st.storage_positions.length) := by
  have hupd : (update_storage_costs st week).2 = { st with last_cost_week := week } := by
    simp only [update_storage_costs, if_pos (And.intro hw4 hwn)]
  constructor
  · intro h0 hlt
    simp only [totalStorageCost] at h0 hlt
    obtain ⟨st', hfold, hsp, hcap⟩ := liquidation_fold bidOf st.storage_positions
      (update_storage_costs st week).2 (by rw [hupd]) hnd
      (by intro p hp; rw [hupd]; exact hbid p hp)
      (by intro p hp; rw [hupd]; exact hinv p hp)
    refine ⟨st', ?_, hsp, ?_⟩
    · simp only [handle_storage_costs]
      rw [if_pos h0, if_pos (by rw [hupd]; exact hlt)]
      simp only [handle_forced_liquidation]
      rw [hupd] at hfold ⊢
      exact hfold
    · rw [hcap, hupd]
  · intro h0 hle
    simp only [totalStorageCost] at h0 hle ⊢
    simp only [handle_storage_costs]
    rw [if_pos h0, if_neg (by rw [hupd]; exact not_lt.mpr hle)]
    refine ⟨_, rfl, ?_, ?_⟩
    · simp [hupd]
    · simp [hupd]

/-- One stored CORN lot at Santos; monthly cost 1.25/MT gives a 6250 charge
against only 1000 of capital, forcing liquidation at bid 200. -/
def storageDemo : StorageState :=
  { facilities := [("SANTOS",
      { name := "Santos Terminal", monthly_cost := 1.25,
        current_inventory := [("CORN", 5000)] })],
    last_cost_week := 0, capital := 1000,
    storage_positions :=
      [{ facility := "SANTOS", commodity := "CORN", quantity := 5000,
         entry_price := 215, storage_cost_paid := 0 }],
    fob_bids := [(("CORN", "SANTOS"), some 200)] }

/-- The same book with capital that covers the charge. -/
def storageRich : StorageState := { storageDemo with capital := 100000 }

theorem storage_costs_monthly_witness :
    (∃ st', handle_storage_costs storageDemo 4 = some st' ∧
      st'.storage_positions = [] ∧
      st'.capital = storageDemo.capital +
        (storageDemo.storage_positions.map fun p =>
          (fun _ => (200 : ℚ)) p * 0.95 * (p.quantity : ℚ)).sum) ∧
    (∃ st', handle_storage_costs storageRich 4 = some st' ∧
      st'.capital = storageRich.capital - totalStorageCost storageRich 4 ∧
      st'.storage_positions.length = storageRich.storage_positions.length) := by
  have hb1 : ∀ p ∈ storageDemo.storage_positions,
      lookupA storageDemo.fob_bids (p.commodity, p.facility) =
        some (some ((fun _ => (200 : ℚ)) p)) := by
    intro p hp
    simp only [storageDemo, List.mem_singleton] at hp
    subst hp
    decide
  have hi1 : ∀ p ∈ storageDemo.storage_positions, ∃ f q,
      lookupA storageDemo.facilities p.facility = some f ∧
      lookupA f.current_inventory p.commodity = some q ∧ p.quantity ≤ q := by
    intro p hp
    simp only [storageDemo, List.mem_singleton] at hp
    subst hp
    exact ⟨{ name := "Santos Terminal", monthly_cost := 1.25,
             current_inventory := [("CORN", 5000)] }, 5000,
      by decide, by decide, by decide⟩
  have hb2 : ∀ p ∈ storageRich.storage_positions,
      lookupA storageRich.fob_bids (p.commodity, p.facility) =
        some (some ((fun _ => (200 : ℚ)) p)) := by
    intro p hp
    simp only [storageRich, storageDemo, List.mem_singleton] at hp
    subst hp
    decide
  have hi2 : ∀ p ∈ storageRich.storage_positions, ∃ f q,
      lookupA storageRich.facilities p.facility = some f ∧
      lookupA f.current_inventory p.commodity = some q ∧ p.quantity ≤ q := by
    intro p hp
    simp only [storageRich, storageDemo, List.mem_singleton] at hp
    subst hp
    exact ⟨{ name := "Santos Terminal", monthly_cost := 1.25,
             current_inventory := [("CORN", 5000)] }, 5000,
      by decide, by decide, by decide⟩
  refine ⟨?_, ?_⟩
  · exact (storage_costs_monthly storageDemo 4 (fun _ => 200) (by decide) (by decide)
      (by simp [storageDemo]) hb1 hi1).1 (by decide) (by decide)
  · exact (storage_costs_monthly storageRich 4 (fun _ => 200) (by decide) (by decide)
      (by simp [storageRich, storageDemo]) hb2 hi2).2 (by decide) (by decide)

/-! ## CropCycleManager.update_cycle (lines 1942-1986) -/

/-- Python `int()` on a float: truncation toward zero; on a reduced
rational this is the numerator `tdiv` the denominator. -/
def pyInt (q : ℚ) : ℤ := q.num.tdiv (q.den : ℤ)

structure CropCycle where
  region : String
  commodity : String
  plant_start_week : ℤ
  plant_end_week : ℤ
  harvest_start_week : ℤ
  harvest_end_week : ℤ
  base_production : ℤ
  domestic_consumption : ℤ
  export_capacity : ℤ
  yearly_consumption : ℤ
  current_production : ℤ
  current_stocks : ℤ
  harvest_progress : ℚ
deriving DecidableEq

/-- `update_cycle` on one cycle (the manager returns `None` untouched for
an unknown `(region, commodity)` pair).  The `math.sin` seasonal term and
the Gaussian-bell `harvest_intensity` (`math.exp`) are transcendental
values consumed by the week's arithmetic; they enter as the oracle
parameters `season_sin` and `harvest_intensity`. -/
def update_cycle (c0 : CropCycle) (current_week : ℤ) (weather_factor : ℚ)
    (season_sin harvest_intensity : ℚ) : CropCycle :=
  let c1 :=
    if current_week = c0.plant_start_week then
      { c0 with
        current_production := pyInt ((c0.base_production : ℚ) * weather_factor),
        harvest_progress := 0 }
    else c0
  let c2 :=
    if c1.harvest_start_week ≤ current_week ∧ current_week ≤ c1.harvest_end_week then
      let weekly_progress : ℚ :=
        1 / (((c1.harvest_end_week - c1.harvest_start_week + 1) : ℤ) : ℚ)
      let new_harvest :=
        pyInt ((c1.current_production : ℚ) * weekly_progress * harvest_intensity)
      { c1 with
        harvest_progress := min 1 (c1.harvest_progress + weekly_progress),
        current_stocks := c1.current_stocks + new_harvest }
    else c1
  let season_factor : ℚ := 1 + 0.2 * season_sin
  let base_weekly_consumption : ℚ := (c2.yearly_consumption : ℚ) / 52
  let weekly_consumption := pyInt (base_weekly_consumption * season_factor)
  let c3 := { c2 with current_stocks := max 0 (c2.current_stocks - weekly_consumption) }
  if weekly_consumption * 4 < c3.current_stocks then
    let weekly_export_capacity : ℚ := (c3.export_capacity : ℚ) / 52
    let potential_exports :=
      min weekly_export_capacity ((c3.current_stocks : ℚ) * 0.1)
    { c3 with current_stocks := max 0 (c3.current_stocks - pyInt potential_exports) }
  else c3

/-- C8.  Stock non-negativity: `current_stocks ≥ 0` after every
`update_cycle` call, for every cycle state, week, weather factor and oracle
values — the weekly consumption step and the export-drain step both clamp
at `max(0, ·)`, so no hypothesis on the initial stocks is even needed, and
the bound propagates through any sequence of calls. -/
theorem crop_stock_nonneg (c : CropCycle) (current_week : ℤ)
    (weather_factor season_sin harvest_intensity : ℚ) :
    0 ≤ (update_cycle c current_week weather_factor season_sin
      harvest_intensity).current_stocks := by
  unfold update_cycle
  dsimp only
  split_ifs <;> simp [le_max_left]

/-! ## Market quotes and the weekly commodity update
(`MarketQuote` lines 2749-2822, `_update_commodity_markets` lines
3594-3655) -/

structure MarketQuote where
  bid : Option ℚ
  offer : Option ℚ
  last_price : ℚ
  inventory : ℤ
deriving DecidableEq

/-- Lines 3604-3606: remember the last price when the quote is valid. -/
def stampLastPrice (q0 : MarketQuote) : MarketQuote :=
  if q0.bid.isSome ∧ q0.offer.isSome then { q0 with last_price := q0.bid.getD 0 }
  else q0

theorem stampLastPrice_bid (q : MarketQuote) : (stampLastPrice q).bid = q.bid := by
  unfold stampLastPrice
  split_ifs <;> rfl

theorem stampLastPrice_offer (q : MarketQuote) :
    (stampLastPrice q).offer = q.offer := by
  unfold stampLastPrice
  split_ifs <;> rfl

/-- The reinitialization prices of `_update_commodity_markets`: the
`base_fob` table entries (lines 3624-3628) and the per-commodity defaults
(lines 3633-3642).  `none` for a commodity outside the loop's three. -/
def reinitQuote (commodity origin : String) : Option (ℚ × ℚ) :=
  if commodity = "CORN" ∧ origin = "SANTOS" then some (215, 218)
  else if commodity = "CORN" ∧ origin = "ROSARIO" then some (213, 216)
  else if commodity = "CORN" then some (215, 218)
  else if commodity = "WHEAT" then some (230, 233)
  else if commodity = "SOYBEAN" then some (380, 383)
  else none

/-- One fob quote's update inside `_update_commodity_markets`.  Oracles:
`region_found` (whether `port_to_region` knows the origin), `stock_pct`
(the crop cycle's stock percentage after its update), `local_change`
(commodity-wide Gaussian + local Gaussian + trend), `price_factor`
(crop-cycle price factor), `offer_spread` (`random.uniform(1.0, 3.0)`).
The result `none` models the `TypeError` the price arithmetic would raise
on a `None` quote of a commodity outside the reinit table. -/
def updateFobQuote (q0 : MarketQuote) (commodity origin : String)
    (region_found : Bool)
    (stock_pct local_change price_factor offer_spread : ℚ) :
    Option MarketQuote :=
  let q1 := stampLastPrice q0
  if region_found then
    let inv := pyInt (500000 * stock_pct)
    if 0 < inv then
      let start : Option (ℚ × ℚ) :=
        match q1.bid, q1.offer with
        | some b, some o => some (b, o)
        | _, _ => reinitQuote commodity origin
      match start with
      | none => none
      | some bo =>
        let percent_change := (local_change / 100) * price_factor
        let new_bid := max 0 (bo.1 * (1 + percent_change))
        some { q1 with inventory := inv, bid := some new_bid,
                       offer := some (new_bid + offer_spread) }
    else
      some { q1 with inventory := inv, bid := none, offer := none }
  else some q1

/-- C9.  Quote symmetry: for the commodities the weekly update iterates
over, the update never leaves exactly one of bid/offer defined — it either
assigns both (positive inventory) or clears both (inventory exhausted), and
a paired quote stays paired when the origin has no region.  (No other
operation in the source writes a fob quote's `bid` or `offer`.) -/
theorem quote_symmetry (q : MarketQuote) (commodity origin : String)
    (region_found : Bool)
    (stock_pct local_change price_factor offer_spread : ℚ)
    (hc : commodity = "WHEAT" ∨ commodity = "CORN" ∨ commodity = "SOYBEAN")
    (hq : q.bid.isSome ↔ q.offer.isSome) :
    ∃ q', updateFobQuote q commodity origin region_found stock_pct local_change
        price_factor offer_spread = some q' ∧
      (q'.bid.isSome ↔ q'.offer.isSome) ∧
      (region_found = true → 0 < pyInt (500000 * stock_pct) →
        q'.bid.isSome ∧ q'.offer.isSome) ∧
      (region_found = true → pyInt (500000 * stock_pct) ≤ 0 →
        q'.bid = none ∧ q'.offer = none) := by
  obtain ⟨bo0, hre⟩ : ∃ bo, reinitQuote commodity origin = some bo := by
    rcases hc with h | h | h <;> subst h <;> unfold reinitQuote <;>
      split_ifs <;> simp_all
  cases region_found with
  | false =>
    refine ⟨stampLastPrice q, rfl, ?_, by simp, by simp⟩
    rw [stampLastPrice_bid, stampLastPrice_offer]
    exact hq
  | true =>
    by_cases hinv : 0 < pyInt (500000 * stock_pct)
    · obtain ⟨bo, hstart⟩ : ∃ bo,
          (match (stampLastPrice q).bid, (stampLastPrice q).offer with
            | some b, some o => some (b, o)
            | _, _ => reinitQuote commodity origin) = some (bo : ℚ × ℚ) := by
        cases hbb : (stampLastPrice q).bid with
        | some b =>
          cases hoo : (stampLastPrice q).offer with
          | some o => exact ⟨(b, o), rfl⟩
          | none => exact ⟨bo0, hre⟩
        | none =>
          cases hoo : (stampLastPrice q).offer with
          | some o => exact ⟨bo0, hre⟩
          | none => exact ⟨bo0, hre⟩
      have hrun : updateFobQuote q commodity origin true stock_pct local_change
          price_factor offer_spread = some
          { stampLastPrice q with
            inventory := pyInt (500000 * stock_pct),
            bid := some (max 0 (bo.1 * (1 + (local_change / 100) * price_factor))),
            offer := some (max 0 (bo.1 * (1 + (local_change / 100) * price_factor))
              + offer_spread) } := by
        simp only [updateFobQuote]
        rw [if_pos trivial, if_pos hinv, hstart]
      refine ⟨_, hrun, by simp, fun _ _ => by simp, fun _ hle => ?_⟩
      exact absurd hinv (not_lt.mpr hle)
    · have hrun : updateFobQuote q commodity origin true stock_pct local_change
          price_factor offer_spread = some
          { stampLastPrice q with
            inventory := pyInt (500000 * stock_pct),
            bid := none, offer := none } := by
        simp only [updateFobQuote]
        rw [if_pos trivial, if_neg hinv]
      refine ⟨_, hrun, by simp, fun _ hpos => ?_, fun _ _ => ⟨rfl, rfl⟩⟩
      exact absurd hpos hinv

/-- A valid CORN quote at Santos with half the reference stock level:
inventory 250000, both sides of the quote refreshed. -/
def demoQuote : MarketQuote :=
  { bid := some 215, offer := some 218, last_price := 215, inventory := 300000 }

theorem quote_symmetry_witness :
    ∃ q', updateFobQuote demoQuote "CORN" "SANTOS" true (1/2) 2 1 (3/2) =
        some q' ∧
      (q'.bid.isSome ↔ q'.offer.isSome) ∧
      (true = true → 0 < pyInt (500000 * (1/2)) →
        q'.bid.isSome ∧ q'.offer.isSome) ∧
      (true = true → pyInt (500000 * (1/2)) ≤ 0 →
        q'.bid = none ∧ q'.offer = none) :=
  quote_symmetry demoQuote "CORN" "SANTOS" true (1/2) 2 1 (3/2)
    (Or.inr (Or.inl rfl)) (by decide)

end Viterra
